import Mathlib

/-!
Shallow embedding of `depth/loader.go` from bogdantimes/order-book-depth-loader.

The Go source is embedded as executable Lean definitions:

* `Pair.Valid` embeds the `Pair.Valid` method.
* `mapGet`/`mapSet` embed Go map reads and writes on `map[Pair][]string`
  (an absent key reads as a nil slice, modelled by `none`).
* `tick`, `getDepth` embed `Tick` and `GetDepth` (the cursor).
* `readAux`/`readDepthRecordsFromFile` embed the cache-file body reader,
  including the `encoding/csv` field-count behaviour (`FieldsPerRecord = 0`).
* `gapFill`, `splitTokens`, `fetchLoop`, `downloadDay` embed the per-day
  fetch loop of `downloadDay` after CSV decoding and timestamp parsing.
* `loadPairs`, `load` embed `Load`; network day downloads are abstracted by
  a `fetch` function standing for successful `downloadDay` results, and the
  cache file content at the derived path is passed and returned explicitly.

Go panics are modelled as `Except.error`; filesystem and HTTP transport
failures (which also panic) are outside the model.
-/

namespace DepthLoader

/-- Pair embeds the Go type `Pair` (a string such as "BTC-BUSD"). -/
abbrev Pair := String

/-- Pair.Valid embeds `func (p Pair) Valid() bool`, which is
`strings.Contains(p.String(), "-")`: for the one-character needle "-" this
holds exactly when the character '-' occurs among p's characters. -/
def Pair.Valid (p : Pair) : Bool := p.toList.contains '-'

/-- Definition taken from the spec's words, for comparison with
`Pair.Valid`: "validity requires exactly the separator-joined two-part
form", i.e. a base symbol and a quote symbol joined by exactly one
separator, so the string contains exactly one '-'. -/
def specPairValid (p : Pair) : Bool := p.toList.count '-' = 1

/-- RecMap embeds the in-memory `map[Pair][]string` as an association
list; `mapGet` returning `none` corresponds to the nil slice a Go map
read yields for a missing key. -/
abbrev RecMap := List (Pair × List String)

def mapGet : RecMap → Pair → Option (List String)
  | [], _ => none
  | (k, v) :: rest, q => if k = q then some v else mapGet rest q

def mapSet : RecMap → Pair → List String → RecMap
  | [], k, v => [(k, v)]
  | (k', v') :: rest, k, v =>
    if k' = k then (k, v) :: rest else (k', v') :: mapSet rest k v

/-- tick embeds `Tick`: `l.index += 4`. The index starts at 0 in a fresh
loader and is only ever incremented, so it is modelled as a Nat. -/
def tick (index : Nat) : Nat := index + 4

/-- Index after k calls to `Tick` on a freshly constructed loader. -/
def tickN : Nat → Nat
  | 0 => 0
  | k + 1 => tick (tickN k)

/-- getDepth embeds `GetDepth`: it reads `l.records[pair]` (the nil slice,
here `[]`, for an absent key), panics with "index out of range" when
`l.index >= len(...)`, and otherwise takes the slice
`l.records[pair][l.index : l.index+4]` — the 4 tokens that are then fed to
`mustParseFloat`. The float parsing itself is not modelled; the returned
value is the 4 parsed tokens. -/
def getDepth (recs : RecMap) (index : Nat) (p : Pair) :
    Except String (List String) :=
  let series := (mapGet recs p).getD []
  if series.length ≤ index then .error "index out of range"
  else .ok ((series.drop index).take 4)

/-- Basic lemma: `mapGet` after `mapSet` reads the written value at the
written key and is unchanged elsewhere. -/
theorem mapGet_mapSet (m : RecMap) (k : Pair) (v : List String) (q : Pair) :
    mapGet (mapSet m k v) q = if k = q then some v else mapGet m q := by
  induction m with
  | nil =>
    by_cases h : k = q <;> simp [mapSet, mapGet, h]
  | cons hd tl ih =>
    obtain ⟨k', v'⟩ := hd
    by_cases h1 : k' = k
    · subst h1
      by_cases h2 : k' = q <;> simp [mapSet, mapGet, h2]
    · by_cases h2 : k' = q
      · subst h2
        have : ¬ k = k' := fun h => h1 h.symm
        simp [mapSet, mapGet, h1, this]
      · simp [mapSet, mapGet, h1, h2, ih]

/-- Claim C9 counterexample: the string "A-B-C" is not of the two-part
base-quote form required by the spec (it contains two separators), yet
`Pair.Valid` accepts it, so validity is not equivalent to the two-part
form. -/
theorem pairValid_not_two_part :
    Pair.Valid "A-B-C" = true ∧ specPairValid "A-B-C" = false := by
  decide

/-- Claim C9 (amended): `Pair.Valid p` is true exactly when p contains the
separator '-' at least once — not only for the exactly-one-separator
two-part form. -/
theorem pairValid_iff_has_separator (p : Pair) :
    Pair.Valid p = true ↔ 1 ≤ p.toList.count '-' := by
  unfold Pair.Valid
  have hmem : p.toList.contains '-' = true ↔ '-' ∈ p.toList := by simp
  rw [hmem, ← List.count_pos_iff]
  omega

/-- Claim C10: for a pair absent from the in-memory map, `GetDepth` fails
at every cursor position — the nil series has length 0, so the out-of-range
guard always fires and no default record is returned. -/
theorem getDepth_absent_pair_fails (recs : RecMap) (p : Pair) (i : Nat)
    (h : mapGet recs p = none) :
    getDepth recs i p = .error "index out of range" := by
  unfold getDepth
  rw [h]
  simp

/-- Witness for `getDepth_absent_pair_fails` at a concrete input. -/
theorem getDepth_absent_pair_fails_witness :
    getDepth [] 0 "BTC-BUSD" = .error "index out of range" :=
  getDepth_absent_pair_fails [] "BTC-BUSD" 0 rfl

/-- Claim C5: after k calls to `Tick` the shared index is 4k; when the
offset 4k leaves room for a full 4-token group in the pair's series,
`GetDepth` returns exactly the 4 tokens at offset 4k (the tokens that get
float-parsed); and at any index at or beyond the series length `GetDepth`
fails rather than wrapping or defaulting. -/
theorem cursor_reads_offset_4k (recs : RecMap) (p : Pair)
    (series : List String) (k : Nat)
    (hs : mapGet recs p = some series) :
    tickN k = 4 * k ∧
    (4 * k + 4 ≤ series.length →
      getDepth recs (tickN k) p = .ok ((series.drop (4 * k)).take 4)) ∧
    (∀ i, series.length ≤ i →
      getDepth recs i p = .error "index out of range") := by
  have htick : ∀ j, tickN j = 4 * j := by
    intro j
    induction j with
    | zero => rfl
    | succ m ih => unfold tickN tick; omega
  refine ⟨htick k, ?_, ?_⟩
  · intro hlen
    unfold getDepth
    rw [hs, htick k]
    have : ¬ series.length ≤ 4 * k := by omega
    simp [this]
  · intro i hi
    unfold getDepth
    rw [hs]
    simp [hi]

/-- Witness for `cursor_reads_offset_4k`: one Tick on an 8-token series
reads tokens 4..7, and index 8 (the series length) fails. -/
theorem cursor_reads_offset_4k_witness :
    getDepth [("BTC-BUSD", ["1", "2", "3", "4", "5", "6", "7", "8"])]
      (tickN 1) "BTC-BUSD" = .ok ["5", "6", "7", "8"] ∧
    getDepth [("BTC-BUSD", ["1", "2", "3", "4", "5", "6", "7", "8"])]
      8 "BTC-BUSD" = .error "index out of range" := by
  have h := cursor_reads_offset_4k
    [("BTC-BUSD", ["1", "2", "3", "4", "5", "6", "7", "8"])] "BTC-BUSD"
    ["1", "2", "3", "4", "5", "6", "7", "8"] 1 (by decide)
  exact ⟨by rw [h.1]; exact h.2.1 (by decide), h.2.2 8 (by decide)⟩

/-- Errors of `readDepthRecordsFromFile`: `fieldCount` is the panic on the
CSV reader's ErrFieldCount (with `FieldsPerRecord = 0` the reader requires
every record to have the same field count as the first record it read);
`corruption p` is the panic
"file is corrupted: history length is not consistent at pair p". -/
inductive ReadErr where
  | fieldCount : ReadErr
  | corruption : Pair → ReadErr
deriving DecidableEq

/-- readAux embeds the read loop of `readDepthRecordsFromFile`. A body
line is `(record[0], record[1:])`; comment lines starting with '#' are
skipped by the CSV reader (`Comment = '#'`) and are not part of the body.
The loop state: `fpr` is `csvParser.FieldsPerRecord` (`none` while still
0, i.e. unset; the first record read sets it to its field count), `hl` is
`historyLength`, `found` is the key set of `foundPairs`. `fpr.getD n ≠ n`
says a previously fixed field count differs from this record's. -/
def readAux (pairs : List Pair) :
    List (Pair × List String) → RecMap → Option Nat → Nat → List Pair →
    Except ReadErr (RecMap × Nat)
  | [], recs, _, hl, _ => .ok (recs, hl)
  | (p, depths) :: rest, recs, fpr, hl, found =>
    if fpr.getD (1 + depths.length) ≠ 1 + depths.length then
      .error .fieldCount
    else if pairs ≠ [] ∧ p ∉ pairs then
      readAux pairs rest recs (some (1 + depths.length)) hl found
    else if 0 < depths.length ∧
        depths.length / 4 ≠ Nat.max hl (depths.length / 4) then
      .error (.corruption p)
    else if pairs ≠ [] then
      if (if p ∈ found then found else p :: found).length = pairs.length then
        .ok (mapSet recs p depths, Nat.max hl (depths.length / 4))
      else
        readAux pairs rest (mapSet recs p depths) (some (1 + depths.length))
          (Nat.max hl (depths.length / 4))
          (if p ∈ found then found else p :: found)
    else
      readAux pairs rest (mapSet recs p depths) (some (1 + depths.length))
        (Nat.max hl (depths.length / 4)) found

/-- readDepthRecordsFromFile embeds
`func (l *CCDepthLoader) readDepthRecordsFromFile(file, pairs) uint`:
it folds `readAux` over the body lines starting from an unset field count,
historyLength 0 and no found pairs, returning the mutated in-memory map
together with the observed history length. -/
def readDepthRecordsFromFile (body : List (Pair × List String))
    (pairs : List Pair) (recs : RecMap) : Except ReadErr (RecMap × Nat) :=
  readAux pairs body recs none 0 []

/-- Invariant of the read loop: once the CSV reader has fixed a field
count n, the observed history length never exceeds (n - 1) / 4, so the
length-consistency check can never fire. -/
theorem readAux_no_corruption (pairs : List Pair)
    (body : List (Pair × List String)) :
    ∀ (recs : RecMap) (fpr : Option Nat) (hl : Nat) (found : List Pair),
      (match fpr with
       | some n => hl ≤ (n - 1) / 4
       | none => hl = 0) →
      ∀ p, readAux pairs body recs fpr hl found ≠ .error (.corruption p) := by
  induction body with
  | nil =>
    intro recs fpr hl found _ p
    simp [readAux]
  | cons line rest ih =>
    intro recs fpr hl found hinv p
    obtain ⟨q, depths⟩ := line
    unfold readAux
    by_cases hfc : fpr.getD (1 + depths.length) ≠ 1 + depths.length
    · rw [if_pos hfc]
      simp
    · rw [if_neg hfc]
      have hga : fpr.getD (1 + depths.length) = 1 + depths.length :=
        not_not.mp hfc
      have hle : hl ≤ depths.length / 4 := by
        cases fpr with
        | none => simp only at hinv; omega
        | some m =>
          simp only [Option.getD] at hga
          simp only at hinv
          omega
      have hmax : Nat.max hl (depths.length / 4) = depths.length / 4 :=
        Nat.max_eq_right hle
      have hinvn : hl ≤ (1 + depths.length - 1) / 4 := by omega
      have hinvn' : Nat.max hl (depths.length / 4) ≤
          (1 + depths.length - 1) / 4 := by
        rw [hmax]; omega
      by_cases hskip : pairs ≠ [] ∧ q ∉ pairs
      · rw [if_pos hskip]
        exact ih recs (some (1 + depths.length)) hl found hinvn p
      · rw [if_neg hskip]
        have hchk : ¬ (0 < depths.length ∧
            depths.length / 4 ≠ Nat.max hl (depths.length / 4)) := by
          rw [hmax]; simp
        rw [if_neg hchk]
        by_cases hpr : pairs ≠ []
        · rw [if_pos hpr]
          by_cases hbrk :
              (if q ∈ found then found else q :: found).length = pairs.length
          · rw [if_pos hbrk]
            simp
          · rw [if_neg hbrk]
            exact ih (mapSet recs q depths) (some (1 + depths.length))
              (Nat.max hl (depths.length / 4)) _ hinvn' p
        · rw [if_neg hpr]
          exact ih (mapSet recs q depths) (some (1 + depths.length))
            (Nat.max hl (depths.length / 4)) found hinvn' p

/-- Claim C2 counterexample: a body whose single accepted line has 2
tokens — a count that is not a multiple of 4 — is read successfully
(history length 0), where the claim demands a corruption failure. -/
theorem readBody_accepts_non_multiple_of_four :
    readDepthRecordsFromFile [("BTC-BUSD", ["1", "2"])] [] [] =
      .ok ([("BTC-BUSD", ["1", "2"])], 0) := by
  rfl

/-- Claim C2 (amended): `readDepthRecordsFromFile` either succeeds or
fails with the CSV reader's generic field-count error; the corruption
error naming a pair never occurs. The field-count rule
(`FieldsPerRecord = 0`) already forces every line the reader returns to
have the first line's field count, so every accepted line has the same
token count, the observed history length equals that count divided by 4,
and the per-pair consistency check cannot fire; in particular token
counts that are not multiples of 4 are accepted. -/
theorem readBody_ok_or_fieldCount (body : List (Pair × List String))
    (pairs : List Pair) (recs : RecMap) :
    (∃ r, readDepthRecordsFromFile body pairs recs = .ok r) ∨
      readDepthRecordsFromFile body pairs recs = .error .fieldCount := by
  cases h : readDepthRecordsFromFile body pairs recs with
  | ok r => exact Or.inl ⟨r, rfl⟩
  | error e =>
    cases e with
    | fieldCount => exact Or.inr rfl
    | corruption p =>
      exact absurd h (readAux_no_corruption pairs body recs none 0 [] rfl p)

/-- Row embeds one data row of the per-day CSV after the header row
("time_seconds", skipped by the loop) has been dropped and `record[0]` has
been parsed by `strconv.ParseInt`: `t` is the Unix-second timestamp,
`bid`/`ask` are the combined "price_size" fields `record[1]`/`record[2]`. -/
structure Row where
  t : Int
  bid : String
  ask : String

/-- gapFill embeds the carry-forward loop of `downloadDay`:
`for prevRecordTime.Add(time.Minute).Before(timeSeconds)` append one copy
of `prevRecord` and advance `prevRecordTime` by one minute. `rec` is
prevRecord, `pt` is prevRecordTime and `t` the current row's timestamp (in
Unix seconds). Returns the appended copies and the final prevRecordTime. -/
def gapFill (rec : List String) (pt t : Int) : List (List String) × Int :=
  if h : pt + 60 < t then
    ((gapFill rec (pt + 60) t).1.cons rec, (gapFill rec (pt + 60) t).2)
  else ([], pt)
termination_by (t - pt).toNat
decreasing_by
  omega

/-- splitTokens embeds
`strings.Split(record[1], "_")` / `strings.Split(record[2], "_")` followed
by indexing `[0]` and `[1]`: indexing a split with fewer than two parts
panics ("index out of range"). -/
def splitTokens (bid ask : String) : Except String (List String) :=
  match bid.splitOn "_", ask.splitOn "_" with
  | b0 :: b1 :: _, a0 :: a1 :: _ => .ok [b0, b1, a0, a1]
  | _, _ => .error "index out of range"

/-- fetchLoop embeds the row loop of `downloadDay`: `prev` holds
`(prevRecord, prevRecordTime)` and is `none` while `prevRecordTime` is
still the zero time. When the previous accepted row and the current row
are more than one second apart, the gap-fill copies are appended first;
then rows whose second-component is 0 (`timeSeconds.Second() == 0`,
i.e. `t % 60 = 0`) are split into a 4-token minute record. -/
def fetchLoop : List Row → Option (List String × Int) →
    Except String (List (List String))
  | [], _ => .ok []
  | r :: rest, prev =>
    match prev with
    | none =>
      if r.t % 60 = 0 then
        match splitTokens r.bid r.ask with
        | .error e => .error e
        | .ok rec =>
          match fetchLoop rest (some (rec, r.t)) with
          | .error e => .error e
          | .ok l => .ok (rec :: l)
      else
        match fetchLoop rest none with
        | .error e => .error e
        | .ok l => .ok l
    | some (rec0, pt) =>
      if 1 < r.t - pt then
        if r.t % 60 = 0 then
          match splitTokens r.bid r.ask with
          | .error e => .error e
          | .ok rec =>
            match fetchLoop rest (some (rec, r.t)) with
            | .error e => .error e
            | .ok l => .ok ((gapFill rec0 pt r.t).1 ++ rec :: l)
        else
          match fetchLoop rest (some (rec0, (gapFill rec0 pt r.t).2)) with
          | .error e => .error e
          | .ok l => .ok ((gapFill rec0 pt r.t).1 ++ l)
      else
        if r.t % 60 = 0 then
          match splitTokens r.bid r.ask with
          | .error e => .error e
          | .ok rec =>
            match fetchLoop rest (some (rec, r.t)) with
            | .error e => .error e
            | .ok l => .ok (rec :: l)
        else
          match fetchLoop rest (some (rec0, pt)) with
          | .error e => .error e
          | .ok l => .ok l

/-- downloadDay embeds the tail of `downloadDay`: if no minute record was
produced it returns the explicitly empty result (`return nil`); otherwise
the records are concatenated and the result must have exactly
numbersPerRecord * minutesInADay = 4 * 1440 tokens, else it panics with
"wrong number of records". -/
def downloadDay (rows : List Row) : Except String (List String) :=
  match fetchLoop rows none with
  | .error e => .error e
  | .ok records =>
    if records.isEmpty then .ok []
    else if (records.flatten).length ≠ 4 * 1440 then
      .error "wrong number of records"
    else .ok records.flatten

/-- Number of whole minute boundaries (multiples of 60 seconds) strictly
between a and b — the spec-side count for the gap-fill claim. -/
def minuteBoundariesBetween (a b : Int) : Nat :=
  ((b - 1) / 60 - a / 60).toNat

/-- Claim C3: `downloadDay` returns either the explicitly empty series or
a flat series of exactly 4 × 1440 = 5760 tokens; any other produced length
panics, so no other length is ever returned. -/
theorem downloadDay_full_day_or_empty (rows : List Row) (s : List String)
    (h : downloadDay rows = .ok s) : s = [] ∨ s.length = 5760 := by
  unfold downloadDay at h
  split at h
  · exact absurd h (by simp)
  · split at h
    · left
      cases h
      rfl
    · split at h
      · exact absurd h (by simp)
      · next hlen =>
          right
          cases h
          have heq := not_not.mp hlen
          omega

/-- Witness for `downloadDay_full_day_or_empty`: the empty row list
produces the explicitly empty result. -/
theorem downloadDay_full_day_or_empty_witness :
    downloadDay [] = .ok [] ∧
    (([] : List String) = [] ∨ ([] : List String).length = 5760) :=
  ⟨rfl, downloadDay_full_day_or_empty [] [] rfl⟩

/-- The gap-fill loop emits exactly one copy of the previous record per
whole minute boundary strictly between the previous accepted timestamp
(always a multiple of 60) and the current one. Proved by induction on a
fuel bound for the decreasing measure. -/
theorem gapFill_replicate (rec : List String) (t : Int) :
    ∀ (n : Nat) (pt : Int), (t - pt).toNat ≤ n → pt % 60 = 0 → pt < t →
      (gapFill rec pt t).1 =
        List.replicate (minuteBoundariesBetween pt t) rec := by
  intro n
  induction n with
  | zero =>
    intro pt hfuel _ hlt
    exact absurd hfuel (by omega)
  | succ m ih =>
    intro pt hfuel hmod hlt
    rw [gapFill]
    by_cases h : pt + 60 < t
    · rw [dif_pos h]
      have hrec := ih (pt + 60) (by omega) (by omega) (by omega)
      have hcount : minuteBoundariesBetween pt t =
          minuteBoundariesBetween (pt + 60) t + 1 := by
        unfold minuteBoundariesBetween
        omega
      rw [hcount, List.replicate_succ]
      simp [hrec]
    · rw [dif_neg h]
      have hcount : minuteBoundariesBetween pt t = 0 := by
        unfold minuteBoundariesBetween
        omega
      rw [hcount]
      simp

/-- Claim C4: in the day-fetch loop, when the previous accepted row's
timestamp and the current row's are more than 1 second apart, the output
continues with one copy of the previous minute's 4-token record for every
whole minute boundary strictly between them, before anything produced for
the current row; with exactly one missing minute this is one copy equal to
the previous minute's tokens. -/
theorem gapFill_carries_forward (rec0 : List String) (pt : Int) (r : Row)
    (rest : List Row) (l : List (List String))
    (hmod : pt % 60 = 0) (hgap : 1 < r.t - pt)
    (hrun : fetchLoop (r :: rest) (some (rec0, pt)) = .ok l) :
    ∃ tail,
      l = List.replicate (minuteBoundariesBetween pt r.t) rec0 ++ tail := by
  have hfill : (gapFill rec0 pt r.t).1 =
      List.replicate (minuteBoundariesBetween pt r.t) rec0 :=
    gapFill_replicate rec0 r.t (r.t - pt).toNat pt (by omega) hmod (by omega)
  unfold fetchLoop at hrun
  dsimp only at hrun
  rw [if_pos hgap] at hrun
  by_cases hsec : r.t % 60 = 0
  · rw [if_pos hsec] at hrun
    cases hst : splitTokens r.bid r.ask with
    | error e =>
      rw [hst] at hrun
      exact absurd hrun (by simp)
    | ok rec =>
      rw [hst] at hrun
      dsimp only at hrun
      cases hrest : fetchLoop rest (some (rec, r.t)) with
      | error e =>
        rw [hrest] at hrun
        exact absurd hrun (by simp)
      | ok l2 =>
        rw [hrest] at hrun
        dsimp only at hrun
        injection hrun with hl
        subst hl
        exact ⟨rec :: l2, by rw [hfill]⟩
  · rw [if_neg hsec] at hrun
    cases hrest : fetchLoop rest (some (rec0, (gapFill rec0 pt r.t).2)) with
    | error e =>
      rw [hrest] at hrun
      exact absurd hrun (by simp)
    | ok l2 =>
      rw [hrest] at hrun
      dsimp only at hrun
      injection hrun with hl
      subst hl
      exact ⟨l2, by rw [hfill]⟩

/-- Witness for `gapFill_carries_forward`: from an accepted minute record
at second 0, a next row at second 121 (two whole minute boundaries, 60 and
120, lie strictly between) yields exactly two carried-forward copies. -/
theorem gapFill_carries_forward_witness :
    fetchLoop [⟨121, "", ""⟩] (some (["1", "2", "3", "4"], 0)) =
      .ok [["1", "2", "3", "4"], ["1", "2", "3", "4"]] ∧
    (∃ tail, [["1", "2", "3", "4"], ["1", "2", "3", "4"]] =
      List.replicate (minuteBoundariesBetween 0 121) ["1", "2", "3", "4"]
        ++ tail) := by
  have g : gapFill ["1", "2", "3", "4"] (0 : Int) 121 =
      ([["1", "2", "3", "4"], ["1", "2", "3", "4"]], 120) := by
    rw [gapFill, dif_pos (by norm_num : (0 : Int) + 60 < 121),
        gapFill, dif_pos (by norm_num : (0 : Int) + 60 + 60 < 121),
        gapFill, dif_neg (by norm_num : ¬ ((0 : Int) + 60 + 60 + 60 < 121))]
    norm_num
  have hrun : fetchLoop [⟨121, "", ""⟩] (some (["1", "2", "3", "4"], 0)) =
      .ok [["1", "2", "3", "4"], ["1", "2", "3", "4"]] := by
    unfold fetchLoop
    dsimp only
    rw [if_pos (by norm_num : (1 : Int) < 121 - 0)]
    rw [if_neg (by decide : ¬ ((121 : Int) % 60 = 0))]
    rw [g]
    simp [fetchLoop]
  exact ⟨hrun,
    gapFill_carries_forward ["1", "2", "3", "4"] 0 ⟨121, "", ""⟩ [] _
      (by decide) (by norm_num) hrun⟩

/-- CacheFile is the content of the cache file at the path derived from
the date range: the header line `#,<pair1>,...` (whose names
`readPairNamesFromHeader` returns) and the body lines
`<pair>,<tok1>,...` in file order. Files written by this program always
carry the '#' header. -/
structure CacheFile where
  header : List Pair
  body : List (Pair × List String)
deriving DecidableEq

/-- Errors with which `Load` can panic in the modelled part: a body-read
error, or "file history length does not match the range for more than 1
day". -/
inductive LoadErr where
  | readErr : ReadErr → LoadErr
  | rangeMismatch : LoadErr
deriving DecidableEq

/-- defaultPairs embeds the hardcoded `defaultPairs` slice. -/
def defaultPairs : List Pair :=
  ["ADA-BUSD", "BCH-BUSD", "BNB-BUSD", "BTC-BUSD", "DOGE-BUSD", "DOT-BUSD",
   "EOS-BUSD", "ETH-BUSD", "LTC-BUSD", "SOL-BUSD", "UNI-BUSD", "XRP-BUSD"]

/-- loadPairs embeds the `slices.Each(pairsToLoad, ...)` loop of `Load`:
`fetch p d` stands for the successful `downloadDay` result for pair p and
day d; per-day results are concatenated in day order (`slices.MapAsync`
collects results by index, preserving day order); an empty concatenation
is skipped (no memory entry, no file line), otherwise the in-memory map
is updated and one line is appended to the file body. -/
def loadPairs (fetch : Pair → Nat → List String) (days : List Nat) :
    List Pair → RecMap → List (Pair × List String) →
    RecMap × List (Pair × List String)
  | [], recs, body => (recs, body)
  | p :: rest, recs, body =>
    if ((days.map (fetch p)).flatten).isEmpty then
      loadPairs fetch days rest recs body
    else
      loadPairs fetch days rest (mapSet recs p ((days.map (fetch p)).flatten))
        (body ++ [(p, (days.map (fetch p)).flatten)])

/-- load embeds `func (l *CCDepthLoader) Load`. `days` is the enumerated
day list of `[startDate, endDate)`; `reqHistLen` is
`historyLength = int(endDate.Sub(startDate).Minutes())`; the cache file
content at the derived path is passed in as `file` (`none` = no file at
the path) and the updated content is returned. The float computation
`math.Abs(float64(fileHistoryLength) - float64(historyLength))` is exact
integer arithmetic at these magnitudes and is modelled over Int. Note the
Go code assigns `pairsToLoad` only when the caller's pair list is empty or
when the file exists; with a non-empty list and no file it stays nil. -/
def load (fetch : Pair → Nat → List String) (days : List Nat)
    (reqHistLen : Int) (pairs : List Pair) (recs : RecMap)
    (file : Option CacheFile) : Except LoadErr (RecMap × CacheFile) :=
  match file with
  | none =>
    .ok ((loadPairs fetch days (if pairs.isEmpty then defaultPairs else [])
            recs []).1,
         ⟨defaultPairs,
          (loadPairs fetch days (if pairs.isEmpty then defaultPairs else [])
            recs []).2⟩)
  | some f =>
    match readDepthRecordsFromFile f.body pairs recs with
    | .error e => .error (.readErr e)
    | .ok (recs1, fhl) =>
      if fhl ≠ 0 ∧ 1400 ≤ ((fhl : Int) - reqHistLen).natAbs then
        .error .rangeMismatch
      else
        .ok ((loadPairs fetch days
                (((if pairs.isEmpty then f.header else pairs)).filter
                  (fun p => (mapGet recs1 p).isNone)) recs1 f.body).1,
             ⟨f.header,
              (loadPairs fetch days
                (((if pairs.isEmpty then f.header else pairs)).filter
                  (fun p => (mapGet recs1 p).isNone)) recs1 f.body).2⟩)

/-- Claim C1: with no cache file at the derived path and a non-empty
requested pair list, `Load` fetches nothing at all — `pairsToLoad` is only
assigned in the empty-list and file-exists branches — so for any fetch
behaviour the in-memory map is returned unchanged (without the requested
pair) and only the header is written. This contradicts the claim and the
repository's own test, which expect the caller's list to be fetched. -/
theorem load_fresh_explicit_pair_loads_nothing
    (fetch : Pair → Nat → List String) (days : List Nat) (reqHistLen : Int)
    (recs : RecMap) :
    load fetch days reqHistLen ["BTC-BUSD"] recs none =
      .ok (recs, ⟨defaultPairs, []⟩) := by
  unfold load
  dsimp only
  rw [show (["BTC-BUSD"] : List Pair).isEmpty = false from rfl]
  simp [loadPairs]

/-- Claim C6: calling `Load` twice with the same arguments is not
idempotent when the first call starts with no cache file: the first call
loads nothing (see `pairsToLoad`) and writes only the header, while the
second call sees the file, fetches the pair and appends a line, so the two
returned maps differ and the file gains a new line. -/
theorem load_twice_fresh_not_idempotent :
    load (fun _ _ => ["1", "2", "3", "4"]) [0] 1440 ["BTC-BUSD"] [] none =
      .ok ([], ⟨defaultPairs, []⟩) ∧
    load (fun _ _ => ["1", "2", "3", "4"]) [0] 1440 ["BTC-BUSD"] []
        (some ⟨defaultPairs, []⟩) =
      .ok ([("BTC-BUSD", ["1", "2", "3", "4"])],
           ⟨defaultPairs, [("BTC-BUSD", ["1", "2", "3", "4"])]⟩) ∧
    ([] : RecMap) ≠ [("BTC-BUSD", ["1", "2", "3", "4"])] := by
  refine ⟨?_, ?_, by simp⟩
  · rfl
  · rfl

/-- Frame property of the body-read loop: a successful read leaves every
key untouched that is either outside a non-empty filter or absent from the
body's pair column. -/
theorem readAux_frame (pairs : List Pair) (body : List (Pair × List String)) :
    ∀ (recs : RecMap) (fpr : Option Nat) (hl : Nat) (found : List Pair)
      (recs1 : RecMap) (h1 : Nat),
      readAux pairs body recs fpr hl found = .ok (recs1, h1) →
      ∀ q, ((pairs ≠ [] ∧ q ∉ pairs) ∨ q ∉ body.map Prod.fst) →
        mapGet recs1 q = mapGet recs q := by
  induction body with
  | nil =>
    intro recs fpr hl found recs1 h1 h q _
    unfold readAux at h
    injection h with h'
    rw [Prod.mk.injEq] at h'
    rw [← h'.1]
  | cons line rest ih =>
    intro recs fpr hl found recs1 h1 h q hq
    obtain ⟨p, depths⟩ := line
    have hqrest : (pairs ≠ [] ∧ q ∉ pairs) ∨ q ∉ rest.map Prod.fst := by
      cases hq with
      | inl hl' => exact Or.inl hl'
      | inr hr =>
        right
        intro hmem
        exact hr (by simp [hmem])
    unfold readAux at h
    by_cases hfc : fpr.getD (1 + depths.length) ≠ 1 + depths.length
    · rw [if_pos hfc] at h
      exact absurd h (by simp)
    · rw [if_neg hfc] at h
      by_cases hskip : pairs ≠ [] ∧ p ∉ pairs
      · rw [if_pos hskip] at h
        exact ih recs (some (1 + depths.length)) hl found recs1 h1 h q hqrest
      · rw [if_neg hskip] at h
        have hqp : ¬ p = q := by
          cases hq with
          | inl hl' =>
            intro hpq
            rcases hl' with ⟨hpne, hqn⟩
            rcases not_and.mp hskip hpne |> not_not.mp with hpin
            exact hqn (hpq ▸ hpin)
          | inr hr =>
            intro hpq
            exact hr (by simp [hpq])
        by_cases hchk : 0 < depths.length ∧
            depths.length / 4 ≠ Nat.max hl (depths.length / 4)
        · rw [if_pos hchk] at h
          exact absurd h (by simp)
        · rw [if_neg hchk] at h
          by_cases hpr : pairs ≠ []
          · rw [if_pos hpr] at h
            by_cases hbrk : (if p ∈ found then found
                else p :: found).length = pairs.length
            · rw [if_pos hbrk] at h
              injection h with h'
              rw [Prod.mk.injEq] at h'
              rw [← h'.1, mapGet_mapSet, if_neg hqp]
            · rw [if_neg hbrk] at h
              have := ih (mapSet recs p depths) (some (1 + depths.length))
                (Nat.max hl (depths.length / 4))
                (if p ∈ found then found else p :: found) recs1 h1 h q hqrest
              rw [this, mapGet_mapSet, if_neg hqp]
          · rw [if_neg hpr] at h
            have := ih (mapSet recs p depths) (some (1 + depths.length))
              (Nat.max hl (depths.length / 4)) found recs1 h1 h q hqrest
            rw [this, mapGet_mapSet, if_neg hqp]

/-- Frame property of the fetch-and-append loop: pairs outside the load
list keep their map entries, and the file body only grows by lines whose
pair is in the load list. -/
theorem loadPairs_frame (fetch : Pair → Nat → List String) (days : List Nat)
    (ptl : List Pair) :
    ∀ (recs : RecMap) (body : List (Pair × List String)),
      (∀ q, q ∉ ptl →
        mapGet (loadPairs fetch days ptl recs body).1 q = mapGet recs q) ∧
      (∃ tail, (loadPairs fetch days ptl recs body).2 = body ++ tail ∧
        ∀ x ∈ tail, x.1 ∈ ptl) := by
  induction ptl with
  | nil =>
    intro recs body
    exact ⟨fun q _ => rfl, [], by simp [loadPairs]⟩
  | cons p rest ih =>
    intro recs body
    unfold loadPairs
    by_cases hemp : ((days.map (fetch p)).flatten).isEmpty
    · rw [if_pos hemp]
      constructor
      · intro q hq
        exact (ih recs body).1 q (fun hm => hq (List.mem_cons_of_mem p hm))
      · obtain ⟨tail, ht, hx⟩ := (ih recs body).2
        exact ⟨tail, ht, fun x hxm => List.mem_cons_of_mem p (hx x hxm)⟩
    · rw [if_neg hemp]
      constructor
      · intro q hq
        have hq1 : q ∉ rest := fun hm => hq (List.mem_cons_of_mem p hm)
        have hq2 : ¬ p = q := fun hpq => hq (hpq ▸ List.mem_cons_self p rest)
        rw [(ih _ _).1 q hq1, mapGet_mapSet, if_neg hq2]
      · obtain ⟨tail, ht, hx⟩ :=
          (ih (mapSet recs p ((days.map (fetch p)).flatten))
            (body ++ [(p, (days.map (fetch p)).flatten)])).2
        refine ⟨(p, (days.map (fetch p)).flatten) :: tail, ?_, ?_⟩
        · rw [ht]
          simp
        · intro x hxm
          cases hxm with
          | head => exact List.mem_cons_self p rest
          | tail _ hm => exact List.mem_cons_of_mem p (hx x hm)

/-- Claim C8: when a cache file exists and its body reads back with
observed history length `fhl`, `Load` panics with the range-mismatch error
exactly when `fhl` is non-zero and differs from the requested range's
minute count by at least 1400; otherwise `Load` does not fail for this
reason. -/
theorem load_range_mismatch_iff (fetch : Pair → Nat → List String)
    (days : List Nat) (reqHistLen : Int) (pairs : List Pair) (recs : RecMap)
    (f : CacheFile) (recs1 : RecMap) (fhl : Nat)
    (hread : readDepthRecordsFromFile f.body pairs recs = .ok (recs1, fhl)) :
    load fetch days reqHistLen pairs recs (some f) = .error .rangeMismatch ↔
      (fhl ≠ 0 ∧ 1400 ≤ ((fhl : Int) - reqHistLen).natAbs) := by
  unfold load
  dsimp only
  rw [hread]
  dsimp only
  by_cases hc : fhl ≠ 0 ∧ 1400 ≤ ((fhl : Int) - reqHistLen).natAbs
  · rw [if_pos hc]
    simp [hc]
  · rw [if_neg hc]
    simp [hc]

/-- Witness for `load_range_mismatch_iff`: a file whose single body line
holds 8 tokens (history length 2) against a requested range of 1500
minutes (difference 1498 ≥ 1400) makes `Load` fail with the
range-mismatch error. -/
theorem load_range_mismatch_iff_witness :
    readDepthRecordsFromFile
        [("ADA-BUSD", ["1", "2", "3", "4", "5", "6", "7", "8"])] [] [] =
      .ok ([("ADA-BUSD", ["1", "2", "3", "4", "5", "6", "7", "8"])], 2) ∧
    load (fun _ _ => []) [] 1500 [] []
        (some ⟨defaultPairs,
          [("ADA-BUSD", ["1", "2", "3", "4", "5", "6", "7", "8"])]⟩) =
      .error .rangeMismatch := by
  refine ⟨rfl, ?_⟩
  exact (load_range_mismatch_iff (fun _ _ => []) [] 1500 [] []
    ⟨defaultPairs, [("ADA-BUSD", ["1", "2", "3", "4", "5", "6", "7", "8"])]⟩
    [("ADA-BUSD", ["1", "2", "3", "4", "5", "6", "7", "8"])] 2 rfl).mpr
    (by decide)

/-- Claim C7: a successful `Load` call for a single new pair `P2` against
an existing cache file leaves every other pair's in-memory series
unchanged, only appends `P2` lines to the file body (existing lines are
untouched, append-only), and — when `P2` has no line in the file and its
fetch produced data — the returned map additionally contains `P2`'s
concatenated series: `Load` accumulates, never replaces. -/
theorem load_new_pair_frame (fetch : Pair → Nat → List String)
    (days : List Nat) (reqHistLen : Int) (P2 : Pair) (recs : RecMap)
    (f : CacheFile) (recs' : RecMap) (f' : CacheFile)
    (hload : load fetch days reqHistLen [P2] recs (some f) = .ok (recs', f'))
    (hnew : mapGet recs P2 = none) :
    (∀ q, q ≠ P2 → mapGet recs' q = mapGet recs q) ∧
    (∃ tail, f'.body = f.body ++ tail ∧ ∀ x ∈ tail, x.1 = P2) ∧
    (P2 ∉ f.body.map Prod.fst → ((days.map (fetch P2)).flatten) ≠ [] →
      mapGet recs' P2 = some ((days.map (fetch P2)).flatten)) := by
  unfold load at hload
  dsimp only at hload
  cases hread : readDepthRecordsFromFile f.body [P2] recs with
  | error e =>
    rw [hread] at hload
    exact absurd hload (by simp)
  | ok pr =>
    obtain ⟨recs1, fhl⟩ := pr
    rw [hread] at hload
    dsimp only at hload
    unfold readDepthRecordsFromFile at hread
    by_cases hc : fhl ≠ 0 ∧ 1400 ≤ ((fhl : Int) - reqHistLen).natAbs
    · rw [if_pos hc] at hload
      exact absurd hload (by simp)
    · rw [if_neg hc] at hload
      rw [if_neg (show ¬ (([P2] : List Pair).isEmpty = true) by simp)]
        at hload
      injection hload with h'
      rw [Prod.mk.injEq] at h'
      obtain ⟨h1, h2⟩ := h'
      subst h1
      subst h2
      have hsub : ∀ x, x ∈ List.filter (fun p => (mapGet recs1 p).isNone)
          [P2] → x = P2 := by
        intro x hx
        have := List.mem_of_mem_filter hx
        simpa using this
      refine ⟨?_, ?_, ?_⟩
      · intro q hq
        have hq1 : q ∉ List.filter (fun p => (mapGet recs1 p).isNone)
            [P2] := fun hm => hq (hsub q hm)
        rw [(loadPairs_frame fetch days _ recs1 f.body).1 q hq1]
        exact readAux_frame [P2] f.body recs none 0 [] recs1 fhl hread q
          (Or.inl ⟨by simp, by simp [hq]⟩)
      · obtain ⟨tail, ht, hx⟩ := (loadPairs_frame fetch days
          (List.filter (fun p => (mapGet recs1 p).isNone) [P2])
          recs1 f.body).2
        exact ⟨tail, ht, fun x hxm => hsub x.1 (hx x hxm)⟩
      · intro hpb hne
        have hr1 : mapGet recs1 P2 = none := by
          rw [readAux_frame [P2] f.body recs none 0 [] recs1 fhl hread P2
            (Or.inr hpb)]
          exact hnew
        have hptl : List.filter (fun p => (mapGet recs1 p).isNone) [P2] =
            [P2] := by
          simp [hr1]
        have hie : ((days.map (fetch P2)).flatten).isEmpty = false := by
          cases hjoin : (days.map (fetch P2)).flatten with
          | nil => exact absurd hjoin hne
          | cons a l => rfl
        rw [hptl]
        unfold loadPairs
        rw [if_neg (by rw [hie]; simp)]
        unfold loadPairs
        rw [mapGet_mapSet]
        simp

/-- Witness for `load_new_pair_frame`: with "AAA-BUSD" already loaded (in
memory and on file), loading the new pair "ETH-BUSD" keeps "AAA-BUSD"'s
entry and adds "ETH-BUSD"'s fetched series. -/
theorem load_new_pair_frame_witness :
    mapGet [("AAA-BUSD", ["9", "9", "9", "9"]),
            ("ETH-BUSD", ["1", "2", "3", "4"])] "AAA-BUSD" =
      mapGet [("AAA-BUSD", ["9", "9", "9", "9"])] "AAA-BUSD" ∧
    mapGet [("AAA-BUSD", ["9", "9", "9", "9"]),
            ("ETH-BUSD", ["1", "2", "3", "4"])] "ETH-BUSD" =
      some ((([0] : List Nat).map
        ((fun _ _ => ["1", "2", "3", "4"]) "ETH-BUSD")).flatten) := by
  have hload : load (fun _ _ => ["1", "2", "3", "4"]) [0] 0 ["ETH-BUSD"]
      [("AAA-BUSD", ["9", "9", "9", "9"])]
      (some ⟨defaultPairs, [("AAA-BUSD", ["9", "9", "9", "9"])]⟩) =
    .ok ([("AAA-BUSD", ["9", "9", "9", "9"]),
          ("ETH-BUSD", ["1", "2", "3", "4"])],
         ⟨defaultPairs,
          [("AAA-BUSD", ["9", "9", "9", "9"]),
           ("ETH-BUSD", ["1", "2", "3", "4"])]⟩) := rfl
  have h := load_new_pair_frame (fun _ _ => ["1", "2", "3", "4"]) [0] 0
    "ETH-BUSD" [("AAA-BUSD", ["9", "9", "9", "9"])]
    ⟨defaultPairs, [("AAA-BUSD", ["9", "9", "9", "9"])]⟩
    [("AAA-BUSD", ["9", "9", "9", "9"]), ("ETH-BUSD", ["1", "2", "3", "4"])]
    ⟨defaultPairs,
     [("AAA-BUSD", ["9", "9", "9", "9"]),
      ("ETH-BUSD", ["1", "2", "3", "4"])]⟩
    hload (by decide)
  exact ⟨h.1 "AAA-BUSD" (by decide), h.2.2 (by decide) (by decide)⟩

end DepthLoader
